import Mathlib

/-!
Verification of the "international sales" synthetic-data generation pipeline
(`src/sales/generators/*.py`, `src/sales/generate_data.py`).

Shallow embedding conventions:
* Python `random.*` draws are modelled as explicit oracle arguments
  (`draw : Nat`, `demand : Rat`, streams `Nat -> Nat` / `Nat -> String`);
  every theorem quantifies over them.
* Python floats are modelled as rationals; `round(x, 6)` is modelled by
  `round6` (round half to even, as Python's `round` ties).
* Database id assignment is modelled by sequential ids starting from a
  parameter `firstId` (the generators restart the sequences at 1, so the
  intended value is 1, but the restart is wrapped in try/except).
* Exceptions (KeyError, IndexError) are modelled with `Except String`.
-/

/-- Model of Python `random.randint(lo, hi)` (inclusive bounds): the oracle
`draw` is reduced modulo the size of the range. From the uses in
`inventory.py`. -/
def randint (lo hi draw : Nat) : Nat := lo + draw % (hi + 1 - lo)

/-- Model of Python `random.choice(l)`: picks the element at the oracle index
modulo the length; `none` models the `IndexError` raised on an empty
sequence. -/
def pyChoice {α : Type} (l : List α) (pick : Nat) : Option α :=
  l.get? (pick % l.length)

/-- Model of `random.choice` at call sites where the list is known nonempty;
the default is never used on a nonempty list. -/
def pyChoiceD {α : Type} (l : List α) (pick : Nat) (dflt : α) : α :=
  (pyChoice l pick).getD dflt

/-- Character-list version of `String.startsWith`. -/
def leadsWith : List Char → List Char → Bool
  | [], _ => true
  | _ :: _, [] => false
  | a :: as, b :: bs => a == b && leadsWith as bs

/-- Substring occurrence test on character lists. -/
def containsSub (needle : List Char) : List Char → Bool
  | [] => needle.isEmpty
  | c :: rest => leadsWith needle (c :: rest) || containsSub needle rest

/-- Model of Python `needle in haystack` on strings (substring test), used by
`inventory.py` line 95 as `'Sales' in str(e.get('role_id', ''))`. -/
def pyStrIn (needle hay : String) : Bool :=
  containsSub needle.toList hay.toList

/-! ## Unique-name generation with retry (spec 4.2)

The retry loop shared by `hr.py` lines 183-193 (emails, budget 10),
`supplier.py` lines 91-102 and `customer.py` lines 102-112 (company names,
budget 10), `product.py` lines 239-249 (SKUs, budget 10): draw candidates
until one is not in the used set, at most `maxAttempts` times; on exhaustion
fall back to a deterministically built name, which is added to the used set
WITHOUT a uniqueness check. -/

/-- The while-loop of the retry scheme: scan candidates `cand attempts`,
`cand (attempts+1)`, ... while the budget lasts, returning the first
candidate not yet used. -/
def findFreshKey (cand : Nat → String) (used : List String) :
    Nat → Nat → Option String
  | _, 0 => none
  | attempts, fuel + 1 =>
    let c := cand attempts
    if c ∈ used then findFreshKey cand used (attempts + 1) fuel else some c

/-- Number of candidate draws the while-loop consumes. -/
def retryDraws (cand : Nat → String) (used : List String) :
    Nat → Nat → Nat
  | _, 0 => 0
  | attempts, fuel + 1 =>
    if cand attempts ∈ used then retryDraws cand used (attempts + 1) fuel + 1
    else 1

/-- The retry-then-suffix key generator: the while-loop result, or the
fallback name once the budget is exhausted (`else` of the Python
`while`/`else`). -/
def genUniqueKey (cand : Nat → String) (fallback : String)
    (used : List String) (maxAttempts : Nat) : String :=
  (findFreshKey cand used 0 maxAttempts).getD fallback

/-- The fallback email built by `hr.py` line 192:
`f"employee{employee_id}@{faker.domain_name()}"`. -/
def emailFallback (employeeId : Nat) (domain : String) : String :=
  "employee" ++ toString employeeId ++ "@" ++ domain

/-! ## Seasonal order volume shaping (`sales.py` lines 97-110, spec 4.5) -/

/-- The seasonal multiplier assigned to a candidate order by the month of its
order date (`sales.py` lines 98-106). -/
def seasonalMultiplier (month : Nat) : ℚ :=
  if month = 11 ∨ month = 12 then 14 / 10
  else if month = 1 ∨ month = 2 then 7 / 10
  else if month = 6 ∨ month = 7 ∨ month = 8 then 8 / 10
  else 1

/-- Whether a candidate order is retained: `sales.py` line 109 skips the
order iff `random.random() > seasonal_multiplier`, so it is retained iff
the uniform draw `u` does not exceed the multiplier. -/
def retainOrder (u : ℚ) (month : Nat) : Bool :=
  !(u > seasonalMultiplier month)

/-- Number of retained orders among the `n` canonical uniform draws
`(2k+1)/(2n)`, `k < n` (midpoints of an even partition of `[0,1)`, the
sample space of `random.random()`). -/
def retainedCount (month n : Nat) : Nat :=
  ((List.range n).filter
    (fun k => retainOrder ((2 * k + 1 : ℚ) / (2 * n)) month)).length

/-! ## Inventory record construction (`inventory.py` lines 36-61) -/

/-- One inventory row as built by `inventory.py` lines 36-62 from the random
draws: `base_stock = randint(10, 500)`, `quantity_on_hand =
int(base_stock * demand_factor)`, `quantity_reserved = randint(0,
quantity_on_hand // 3)`, `quantity_on_order = randint(0, base_stock)`,
`reorder_level = randint(5, max(6, base_stock // 3))`, `max_stock_level =
base_stock * 2`. -/
structure InventoryRecord where
  quantityOnHand : Nat
  quantityOnOrder : Nat
  quantityReserved : Nat
  reorderLevel : Nat
  maxStockLevel : Nat
deriving Repr, DecidableEq

/-- Builds one inventory record; `demand` models
`random.uniform(0.5, 2.0)` and the integer draws model the `randint`
oracles. `int(...)` on a nonnegative float is truncation, i.e. `floor`. -/
def mkInventoryRecord (baseDraw resDraw ordDraw reorderDraw : Nat)
    (demand : ℚ) : InventoryRecord :=
  let baseStock := randint 10 500 baseDraw
  let quantityOnHand := (((baseStock : ℚ) * demand).floor).toNat
  let quantityReserved := randint 0 (quantityOnHand / 3) resDraw
  let quantityOnOrder := randint 0 baseStock ordDraw
  let maxReorder := max 6 (baseStock / 3)
  let reorderLevel := randint 5 maxReorder reorderDraw
  ⟨quantityOnHand, quantityOnOrder, quantityReserved, reorderLevel,
    2 * baseStock⟩

/-! ### Basic facts about the random-draw models -/

theorem randint_le (lo hi draw : Nat) (h : lo ≤ hi) :
    randint lo hi draw ≤ hi := by
  unfold randint
  have hpos : 0 < hi + 1 - lo := by omega
  have := Nat.mod_lt draw hpos
  omega

theorem le_randint (lo hi draw : Nat) : lo ≤ randint lo hi draw := by
  unfold randint; omega

theorem findFreshKey_not_mem (cand : Nat → String) (used : List String) :
    ∀ a f c, findFreshKey cand used a f = some c → c ∉ used := by
  intro a f
  induction f generalizing a with
  | zero => intro c h; simp [findFreshKey] at h
  | succ f ih =>
    intro c h
    by_cases hc : cand a ∈ used
    · rw [findFreshKey, if_pos hc] at h
      exact ih (a + 1) c h
    · rw [findFreshKey, if_neg hc] at h
      cases h
      exact hc

theorem findFreshKey_none (cand : Nat → String) (used : List String) :
    ∀ a f, findFreshKey cand used a f = none →
      ∀ i, a ≤ i → i < a + f → cand i ∈ used := by
  intro a f
  induction f generalizing a with
  | zero => intro _ i h1 h2; omega
  | succ f ih =>
    intro h i h1 h2
    by_cases hc : cand a ∈ used
    · rw [findFreshKey, if_pos hc] at h
      rcases Nat.eq_or_lt_of_le h1 with rfl | hlt
      · exact hc
      · exact ih (a + 1) h i hlt (by omega)
    · rw [findFreshKey, if_neg hc] at h
      cases h

theorem retryDraws_le (cand : Nat → String) (used : List String) :
    ∀ a f, retryDraws cand used a f ≤ f := by
  intro a f
  induction f generalizing a with
  | zero => simp [retryDraws]
  | succ f ih =>
    rw [retryDraws]
    split
    · have := ih (a + 1)
      omega
    · omega

/-- C1 (amended): a retry-then-suffix key generation consumes at most the
retry budget of candidate draws plus the one fallback construction, and the
returned key is new whenever either some candidate within the budget is
unused, or the fallback string itself is unused; in the fallback case the
code performs no uniqueness check, so uniqueness is conditional on the
latter. -/
theorem genUniqueKey_amended (cand : Nat → String) (fallback : String)
    (used : List String) (n : Nat)
    (h : fallback ∉ used ∨ ∃ i, i < n ∧ cand i ∉ used) :
    genUniqueKey cand fallback used n ∉ used ∧
      retryDraws cand used 0 n ≤ n := by
  refine ⟨?_, retryDraws_le cand used 0 n⟩
  unfold genUniqueKey
  cases hf : findFreshKey cand used 0 n with
  | some c => exact findFreshKey_not_mem cand used 0 n c hf
  | none =>
    rcases h with h | ⟨i, hi, hfresh⟩
    · exact h
    · exact absurd (findFreshKey_none cand used 0 n hf i (Nat.zero_le i)
        (by omega)) hfresh

/-- C1 witness: a concrete instance of the amended theorem with the
hypothesis discharged. -/
theorem genUniqueKey_amended_witness :
    (("b" ∉ (["a"] : List String)) ∨
      ∃ i, i < 10 ∧ (fun _ : Nat => "c") i ∉ (["a"] : List String)) ∧
    (genUniqueKey (fun _ : Nat => "c") "b" ["a"] 10 ∉ (["a"] : List String) ∧
      retryDraws (fun _ : Nat => "c") ["a"] 0 10 ≤ 10) :=
  ⟨Or.inl (by decide),
    genUniqueKey_amended (fun _ => "c") "b" ["a"] 10 (Or.inl (by decide))⟩

/-- C1 counterexample: when all ten candidate draws collide and the fallback
string (here the deterministic employee-email fallback of `hr.py` line 192)
was itself already produced for an earlier entity, the generator returns a
key that is already in the used set, so the generated key is NOT unique in
its scope. -/
theorem genUniqueKey_fallback_collision :
    genUniqueKey (fun _ => emailFallback 7 "example.com")
        (emailFallback 7 "example.com")
        [emailFallback 7 "example.com"] 10 ∈
      [emailFallback 7 "example.com"] := by decide

/-- C6 counterexample: under the canonical uniform draws, every December
candidate order is retained (the multiplier 1.4 exceeds every value of
`random.random()`), July retains 8 of 10, and the December retained rate
1 is not 1.4 times the July retained rate 0.8 (that would be 1.12 > 1). -/
theorem seasonal_skip_counterexample :
    retainedCount 12 10 = 10 ∧ retainedCount 7 10 = 8 ∧
    ¬((retainedCount 12 10 : ℚ) / 10 =
        (14 / 10) * ((retainedCount 7 10 : ℚ) / 10)) := by
  have h12 : retainedCount 12 10 = 10 := by
    norm_num [retainedCount, retainOrder, seasonalMultiplier, List.range_succ]
  have h7 : retainedCount 7 10 = 8 := by
    norm_num [retainedCount, retainOrder, seasonalMultiplier, List.range_succ]
  refine ⟨h12, h7, ?_⟩
  intro h
  rw [h12, h7] at h
  norm_num at h

/-- C6 (amended): a candidate order is retained exactly when the uniform
draw does not exceed the month's seasonal multiplier, hence the retained
rate is min(multiplier, 1): December orders are always retained, so the
December retained rate is 1.25 times, not 1.4 times, the July retained rate
of 0.8. -/
theorem seasonal_retention_amended :
    (∀ (u : ℚ) (month : Nat),
      retainOrder u month = true ↔ u ≤ seasonalMultiplier month) ∧
    retainedCount 12 10 = 10 ∧ retainedCount 7 10 = 8 ∧
    (retainedCount 12 10 : ℚ) / 10 =
      (5 / 4) * ((retainedCount 7 10 : ℚ) / 10) := by
  have h12 : retainedCount 12 10 = 10 := by
    norm_num [retainedCount, retainOrder, seasonalMultiplier, List.range_succ]
  have h7 : retainedCount 7 10 = 8 := by
    norm_num [retainedCount, retainOrder, seasonalMultiplier, List.range_succ]
  refine ⟨?_, h12, h7, ?_⟩
  · intro u month
    simp [retainOrder, not_lt]
  · rw [h12, h7]
    norm_num

/-- C8: every inventory record satisfies
`quantity_reserved ≤ quantity_on_hand / 3` and
`reorder_level < max_stock_level`, for all random draws with the demand
factor in [0.5, 2.0]. -/
theorem inventory_bounds (baseDraw resDraw ordDraw reorderDraw : Nat)
    (demand : ℚ) (h1 : 1 / 2 ≤ demand) (h2 : demand ≤ 2) :
    ((mkInventoryRecord baseDraw resDraw ordDraw reorderDraw
        demand).quantityReserved : ℚ) ≤
      ((mkInventoryRecord baseDraw resDraw ordDraw reorderDraw
        demand).quantityOnHand : ℚ) / 3 ∧
    (mkInventoryRecord baseDraw resDraw ordDraw reorderDraw
        demand).reorderLevel <
      (mkInventoryRecord baseDraw resDraw ordDraw reorderDraw
        demand).maxStockLevel := by
  unfold mkInventoryRecord
  simp only
  constructor
  · have hres := randint_le 0
      ((((randint 10 500 baseDraw : ℚ) * demand).floor.toNat) / 3) resDraw
      (Nat.zero_le _)
    have hcast : ((((((randint 10 500 baseDraw : ℚ) * demand).floor.toNat)
        / 3 : Nat)) : ℚ) ≤
        ((((randint 10 500 baseDraw : ℚ) * demand).floor.toNat : ℚ)) / 3 :=
      Nat.cast_div_le
    calc ((randint 0 ((((randint 10 500 baseDraw : ℚ) *
            demand).floor.toNat) / 3) resDraw : ℚ))
        ≤ (((((randint 10 500 baseDraw : ℚ) * demand).floor.toNat) / 3 :
            Nat) : ℚ) := by exact_mod_cast hres
      _ ≤ ((((randint 10 500 baseDraw : ℚ) * demand).floor.toNat : ℚ)) / 3 :=
            hcast
  · have hbase : 10 ≤ randint 10 500 baseDraw := le_randint 10 500 baseDraw
    have hdiv : randint 10 500 baseDraw / 3 ≤ randint 10 500 baseDraw :=
      Nat.div_le_self _ _
    have hre := randint_le 5 (max 6 (randint 10 500 baseDraw / 3))
      reorderDraw (le_trans (by omega) (le_max_left 6 _))
    have hmax : max 6 (randint 10 500 baseDraw / 3) <
        2 * randint 10 500 baseDraw := by
      rcases max_cases 6 (randint 10 500 baseDraw / 3) with ⟨he, _⟩ | ⟨he, _⟩ <;>
        omega
    omega

/-- C8 witness: the bound theorem instantiated at concrete draws with the
demand-factor hypotheses discharged. -/
theorem inventory_bounds_witness :
    ((1 : ℚ) / 2 ≤ 1 ∧ (1 : ℚ) ≤ 2) ∧
    (((mkInventoryRecord 0 0 0 0 1).quantityReserved : ℚ) ≤
        ((mkInventoryRecord 0 0 0 0 1).quantityOnHand : ℚ) / 3 ∧
      (mkInventoryRecord 0 0 0 0 1).reorderLevel <
        (mkInventoryRecord 0 0 0 0 1).maxStockLevel) :=
  ⟨⟨by norm_num, by norm_num⟩,
    inventory_bounds 0 0 0 0 1 (by norm_num) (by norm_num)⟩

/-! ## Exchange rate walk (`currency.py` lines 63-122, spec 4.4) -/

/-- The base exchange-rate table of `currency.py` lines 63-82. -/
def base_rates : List (String × String × ℚ) :=
  [("USD", "EUR", 85 / 100),
   ("USD", "GBP", 75 / 100),
   ("USD", "JPY", 110),
   ("USD", "CAD", 125 / 100),
   ("USD", "AUD", 135 / 100),
   ("USD", "CHF", 92 / 100),
   ("USD", "CNY", 68 / 10),
   ("USD", "INR", 75),
   ("USD", "BRL", 52 / 10),
   ("USD", "SGD", 135 / 100),
   ("USD", "HKD", 78 / 10),
   ("USD", "SEK", 85 / 10),
   ("USD", "NOK", 88 / 10),
   ("USD", "DKK", 63 / 10),
   ("USD", "MXN", 185 / 10),
   ("USD", "ZAR", 142 / 10),
   ("USD", "THB", 325 / 10),
   ("USD", "MYR", 42 / 10)]

/-- Model of Python `round(x, 6)` over the rationals: round to the nearest
multiple of 10^-6, ties to even. -/
def round6 (x : ℚ) : ℚ :=
  ((if x * 1000000 - ⌊x * 1000000⌋ < 1 / 2 then ⌊x * 1000000⌋
    else if (1 : ℚ) / 2 < x * 1000000 - ⌊x * 1000000⌋ then ⌊x * 1000000⌋ + 1
    else if ⌊x * 1000000⌋ % 2 = 0 then ⌊x * 1000000⌋
    else ⌊x * 1000000⌋ + 1 : ℤ) : ℚ) / 1000000

/-- One daily update of a currency pair's rate (`currency.py` lines 98-113):
`new_rate = prev * (1 + draw + 0.05 * (base - prev))`, clamped to
`[0.5*base, 1.5*base]` and then to `[1e-6, 1e5]`. The normal draw
`np.random.normal(0, 0.003)` is the oracle `draw`. -/
def rateStep (base prev draw : ℚ) : ℚ :=
  let newRate := prev * (1 + draw + (5 / 100) * (base - prev))
  let bounded := max (base * (1 / 2)) (min newRate (base * (3 / 2)))
  max (1 / 1000000) (min bounded 100000)

/-- The forward rate appended for the day (`currency.py` line 115):
`round(new_rate, 6)`. -/
def forwardRate (base prev draw : ℚ) : ℚ :=
  round6 (rateStep base prev draw)

/-- The reverse rate appended for the day (`currency.py` lines 118-122):
produced only under the guard `new_rate > 0.000001`, as
`round(max(0.000001, min(1/new_rate, 1000000.0)), 6)`. -/
def reverseRateValue (base prev draw : ℚ) : Option ℚ :=
  let r := rateStep base prev draw
  if 1 / 1000000 < r then
    some (round6 (max (1 / 1000000) (min (1 / r) 1000000)))
  else none

theorem round6_mem (a b : ℤ) (x : ℚ) (h1 : (a : ℚ) / 1000000 ≤ x)
    (h2 : x ≤ (b : ℚ) / 1000000) :
    (a : ℚ) / 1000000 ≤ round6 x ∧ round6 x ≤ (b : ℚ) / 1000000 := by
  have ha : (a : ℚ) ≤ x * 1000000 := by
    rw [div_le_iff (by norm_num : (0 : ℚ) < 1000000)] at h1; linarith
  have hb : x * 1000000 ≤ (b : ℚ) := by
    rw [le_div_iff (by norm_num : (0 : ℚ) < 1000000)] at h2; linarith
  have hfl : ((⌊x * 1000000⌋ : ℤ) : ℚ) ≤ x * 1000000 := Int.floor_le _
  have haf : a ≤ ⌊x * 1000000⌋ := Int.le_floor.mpr ha
  have hfb : ⌊x * 1000000⌋ ≤ b := by exact_mod_cast le_trans hfl hb
  have hup : ∀ r : ℤ, a ≤ r → r ≤ b →
      (a : ℚ) / 1000000 ≤ (r : ℚ) / 1000000 ∧
        (r : ℚ) / 1000000 ≤ (b : ℚ) / 1000000 := by
    intro r hr1 hr2
    exact ⟨(div_le_div_right (by norm_num)).mpr (by exact_mod_cast hr1),
      (div_le_div_right (by norm_num)).mpr (by exact_mod_cast hr2)⟩
  have hsucc : (0 : ℚ) < x * 1000000 - (⌊x * 1000000⌋ : ℚ) →
      ⌊x * 1000000⌋ + 1 ≤ b := by
    intro hgt
    have hstrict : ((⌊x * 1000000⌋ : ℤ) : ℚ) < (b : ℚ) := by linarith
    have : ⌊x * 1000000⌋ < b := by exact_mod_cast hstrict
    omega
  unfold round6
  split_ifs with hc1 hc2 hc3
  · exact hup _ haf hfb
  · exact hup _ (by omega) (hsucc (by linarith))
  · exact hup _ haf hfb
  · exact hup _ (by omega) (hsucc (by linarith))

theorem rateStep_mem (base prev draw : ℚ) (hb1 : 1 / 1000000 ≤ base * (1 / 2))
    (hb2 : base * (3 / 2) ≤ 100000) :
    base * (1 / 2) ≤ rateStep base prev draw ∧
      rateStep base prev draw ≤ base * (3 / 2) := by
  unfold rateStep
  have hbase : (0 : ℚ) ≤ base := by linarith
  have hml : base * (1 / 2) ≤
      max (base * (1 / 2))
        (min (prev * (1 + draw + (5 / 100) * (base - prev)))
          (base * (3 / 2))) := le_max_left _ _
  have hmu : max (base * (1 / 2))
      (min (prev * (1 + draw + (5 / 100) * (base - prev)))
        (base * (3 / 2))) ≤ base * (3 / 2) :=
    max_le (by linarith) (min_le_right _ _)
  constructor
  · refine le_max_of_le_right ?_
    exact le_min hml (by linarith)
  · refine max_le (by linarith) ?_
    exact le_trans (min_le_left _ _) hmu

/-- Every base rate in the table is (k/100) for an integer k between 75 and
11000; this is what makes the half/one-and-a-half clamp bounds exact
multiples of 10^-6 and keeps them inside the absolute clamp range. -/
theorem base_rates_form :
    ∀ e ∈ base_rates, ∃ k : ℤ,
      e.2.2 = (k : ℚ) / 100 ∧ 75 ≤ k ∧ k ≤ 11000 := by
  intro e he
  fin_cases he
  · exact ⟨85, by norm_num, by norm_num, by norm_num⟩
  · exact ⟨75, by norm_num, by norm_num, by norm_num⟩
  · exact ⟨11000, by norm_num, by norm_num, by norm_num⟩
  · exact ⟨125, by norm_num, by norm_num, by norm_num⟩
  · exact ⟨135, by norm_num, by norm_num, by norm_num⟩
  · exact ⟨92, by norm_num, by norm_num, by norm_num⟩
  · exact ⟨680, by norm_num, by norm_num, by norm_num⟩
  · exact ⟨7500, by norm_num, by norm_num, by norm_num⟩
  · exact ⟨520, by norm_num, by norm_num, by norm_num⟩
  · exact ⟨135, by norm_num, by norm_num, by norm_num⟩
  · exact ⟨780, by norm_num, by norm_num, by norm_num⟩
  · exact ⟨850, by norm_num, by norm_num, by norm_num⟩
  · exact ⟨880, by norm_num, by norm_num, by norm_num⟩
  · exact ⟨630, by norm_num, by norm_num, by norm_num⟩
  · exact ⟨1850, by norm_num, by norm_num, by norm_num⟩
  · exact ⟨1420, by norm_num, by norm_num, by norm_num⟩
  · exact ⟨3250, by norm_num, by norm_num, by norm_num⟩
  · exact ⟨420, by norm_num, by norm_num, by norm_num⟩

/-- C5: for every currency pair of the base-rate table, every generated
forward rate lies in [0.5*base, 1.5*base] and in [1e-6, 1e5], and a
reciprocal rate equal to 1/rate, independently clamped into [1e-6, 1e6]
(then stored at the same 6-decimal precision), is produced for the same
day and lies in [1e-6, 1e6]. -/
theorem exchange_rate_bounds (p : String × String × ℚ) (hp : p ∈ base_rates)
    (prev draw : ℚ) :
    p.2.2 * (1 / 2) ≤ forwardRate p.2.2 prev draw ∧
    forwardRate p.2.2 prev draw ≤ p.2.2 * (3 / 2) ∧
    1 / 1000000 ≤ forwardRate p.2.2 prev draw ∧
    forwardRate p.2.2 prev draw ≤ 100000 ∧
    reverseRateValue p.2.2 prev draw =
      some (round6 (max (1 / 1000000)
        (min (1 / rateStep p.2.2 prev draw) 1000000))) ∧
    ∀ rev, reverseRateValue p.2.2 prev draw = some rev →
      1 / 1000000 ≤ rev ∧ rev ≤ 1000000 := by
  obtain ⟨k, hbk, hk1, hk2⟩ := base_rates_form p hp
  have hkq1 : (75 : ℚ) ≤ (k : ℚ) := by exact_mod_cast hk1
  have hkq2 : (k : ℚ) ≤ 11000 := by exact_mod_cast hk2
  have hb1 : 1 / 1000000 ≤ p.2.2 * (1 / 2) := by rw [hbk]; linarith
  have hb2 : p.2.2 * (3 / 2) ≤ 100000 := by rw [hbk]; linarith
  obtain ⟨hl, hu⟩ := rateStep_mem p.2.2 prev draw hb1 hb2
  have hlow6 : ((5000 * k : ℤ) : ℚ) / 1000000 = p.2.2 * (1 / 2) := by
    rw [hbk]; push_cast; ring
  have hup6 : ((15000 * k : ℤ) : ℚ) / 1000000 = p.2.2 * (3 / 2) := by
    rw [hbk]; push_cast; ring
  obtain ⟨hf1, hf2⟩ := round6_mem (5000 * k) (15000 * k)
    (rateStep p.2.2 prev draw) (by rw [hlow6]; exact hl)
    (by rw [hup6]; exact hu)
  rw [hlow6] at hf1
  rw [hup6] at hf2
  have hguard : 1 / 1000000 < rateStep p.2.2 prev draw := by
    refine lt_of_lt_of_le ?_ hl
    rw [hbk]; linarith
  have hrevEq : reverseRateValue p.2.2 prev draw =
      some (round6 (max (1 / 1000000)
        (min (1 / rateStep p.2.2 prev draw) 1000000))) := by
    unfold reverseRateValue
    simp only [if_pos hguard]
  have hm1 : (1 : ℚ) / 1000000 ≤ max (1 / 1000000)
      (min (1 / rateStep p.2.2 prev draw) 1000000) := le_max_left _ _
  have hm2 : max ((1 : ℚ) / 1000000)
      (min (1 / rateStep p.2.2 prev draw) 1000000) ≤ 1000000 :=
    max_le (by norm_num) (min_le_right _ _)
  obtain ⟨hr1, hr2⟩ := round6_mem 1 1000000000000
    (max (1 / 1000000) (min (1 / rateStep p.2.2 prev draw) 1000000))
    (by push_cast; linarith) (by push_cast; linarith)
  refine ⟨hf1, hf2, le_trans hb1 hf1, le_trans hf2 hb2, hrevEq, ?_⟩
  intro rev hrev
  rw [hrevEq] at hrev
  cases hrev
  constructor
  · have h1q : ((1 : ℤ) : ℚ) / 1000000 = 1 / 1000000 := by norm_num
    rw [h1q] at hr1
    exact hr1
  · have hbq : ((1000000000000 : ℤ) : ℚ) / 1000000 = 1000000 := by norm_num
    rw [hbq] at hr2
    exact hr2

/-- C5 witness: the bound theorem instantiated at the USD/EUR pair with
concrete previous rate 1 and draw 0. -/
theorem exchange_rate_bounds_witness :
    (("USD", "EUR", (85 / 100 : ℚ)) ∈ base_rates) ∧
    ((85 / 100 : ℚ) * (1 / 2) ≤ forwardRate (85 / 100) 1 0 ∧
    forwardRate (85 / 100 : ℚ) 1 0 ≤ (85 / 100) * (3 / 2) ∧
    1 / 1000000 ≤ forwardRate (85 / 100 : ℚ) 1 0 ∧
    forwardRate (85 / 100 : ℚ) 1 0 ≤ 100000 ∧
    reverseRateValue (85 / 100 : ℚ) 1 0 =
      some (round6 (max (1 / 1000000)
        (min (1 / rateStep (85 / 100) 1 0) 1000000))) ∧
    ∀ rev, reverseRateValue (85 / 100 : ℚ) 1 0 = some rev →
      1 / 1000000 ≤ rev ∧ rev ≤ 1000000) :=
  ⟨List.mem_cons_self _ _,
    exchange_rate_bounds ("USD", "EUR", 85 / 100)
      (List.mem_cons_self _ _) 1 0⟩

/-! ## Order line sampling (`sales.py` lines 125-129) -/

/-- Model of Python `random.sample(l, k)` (`k` at most `l.length`): pick an
index with the oracle, remove the element, recurse; the result has distinct
positions of `l`. -/
def sampleWithoutReplacement {α : Type} [DecidableEq α] :
    List α → Nat → (Nat → Nat) → List α
  | _, 0, _ => []
  | l, k + 1, picks =>
    match l with
    | [] => []
    | a :: as =>
      let i := picks k % (a :: as).length
      (a :: as).get ⟨i, Nat.mod_lt _ (by simp)⟩ ::
        sampleWithoutReplacement ((a :: as).eraseIdx i) k picks

theorem sampleWR_length {α : Type} [DecidableEq α] :
    ∀ (k : Nat) (l : List α) (picks : Nat → Nat),
      (sampleWithoutReplacement l k picks).length = min k l.length := by
  intro k
  induction k with
  | zero => intro l p; simp [sampleWithoutReplacement]
  | succ k ih =>
    intro l p
    cases l with
    | nil => simp [sampleWithoutReplacement]
    | cons a as =>
      rw [sampleWithoutReplacement]
      simp only [List.length_cons]
      rw [ih]
      have hlt : p k % (a :: as).length < (a :: as).length :=
        Nat.mod_lt _ (by simp)
      have hle : ((a :: as).eraseIdx (p k % (a :: as).length)).length + 1 =
          (a :: as).length := List.length_eraseIdx_add_one hlt
      simp only [List.length_cons] at hle
      omega

theorem sampleWR_subset {α : Type} [DecidableEq α] :
    ∀ (k : Nat) (l : List α) (picks : Nat → Nat),
      ∀ x ∈ sampleWithoutReplacement l k picks, x ∈ l := by
  intro k
  induction k with
  | zero => intro l p x hx; simp [sampleWithoutReplacement] at hx
  | succ k ih =>
    intro l p x hx
    cases l with
    | nil => simp [sampleWithoutReplacement] at hx
    | cons a as =>
      rw [sampleWithoutReplacement] at hx
      rcases List.mem_cons.mp hx with rfl | hx
      · exact List.get_mem _ _ _
      · exact (List.eraseIdx_sublist _ _).subset (ih _ p x hx)

theorem sampleWR_nodup {α : Type} [DecidableEq α] :
    ∀ (k : Nat) (l : List α) (picks : Nat → Nat), l.Nodup →
      (sampleWithoutReplacement l k picks).Nodup := by
  intro k
  induction k with
  | zero => intro l p _; simp [sampleWithoutReplacement]
  | succ k ih =>
    intro l p hnd
    cases l with
    | nil => simp [sampleWithoutReplacement]
    | cons a as =>
      rw [sampleWithoutReplacement]
      set i := p k % (a :: as).length with hi
      have hlt : i < (a :: as).length := Nat.mod_lt _ (by simp)
      refine List.Nodup.cons ?_
        (ih _ p ((List.eraseIdx_sublist _ _).nodup hnd))
      intro hmem
      have hmem2 : (a :: as).get ⟨i, hlt⟩ ∈ (a :: as).eraseIdx i :=
        sampleWR_subset k _ p _ hmem
      have hperm := List.erase_getElem hlt
      have hmem3 : (a :: as).get ⟨i, hlt⟩ ∈ (a :: as).erase ((a :: as)[i]) :=
        hperm.mem_iff.mpr (by simpa using hmem2)
      rw [List.Nodup.mem_erase_iff hnd] at hmem3
      exact hmem3.1 (by simp [List.get_eq_getElem])

/-- The clamped number of order lines (`sales.py` lines 126-127):
`num_lines = np.random.poisson(avg)` then `max(1, min(num_lines, 10))`. -/
def numOrderLines (poissonDraw : Nat) : Nat :=
  max 1 (min poissonDraw 10)

/-- The products put on the order's lines (`sales.py` line 129):
`random.sample(products_with_ids, min(num_lines, len(products_with_ids)))`. -/
def orderLineProducts (products : List Nat) (poissonDraw : Nat)
    (picks : Nat → Nat) : List Nat :=
  sampleWithoutReplacement products
    (min (numOrderLines poissonDraw) products.length) picks

/-- C10: every generated sales order has between 1 and 10 order lines, never
more lines than there are resolved products, and the products on its lines
are pairwise distinct elements of the resolved-product set. -/
theorem order_lines_bounds (products : List Nat) (poissonDraw : Nat)
    (picks : Nat → Nat) (hne : products ≠ []) (hnd : products.Nodup) :
    1 ≤ (orderLineProducts products poissonDraw picks).length ∧
    (orderLineProducts products poissonDraw picks).length ≤ 10 ∧
    (orderLineProducts products poissonDraw picks).length ≤
      products.length ∧
    (orderLineProducts products poissonDraw picks).Nodup ∧
    ∀ x ∈ orderLineProducts products poissonDraw picks, x ∈ products := by
  have hlen : (orderLineProducts products poissonDraw picks).length =
      min (min (numOrderLines poissonDraw) products.length)
        products.length := sampleWR_length _ _ _
  have hp : 1 ≤ products.length := by
    cases products with
    | nil => exact absurd rfl hne
    | cons a as => simp
  have h1 : 1 ≤ numOrderLines poissonDraw := le_max_left _ _
  have h10 : numOrderLines poissonDraw ≤ 10 := by
    unfold numOrderLines; omega
  refine ⟨by omega, by omega, by omega, sampleWR_nodup _ _ _ hnd,
    sampleWR_subset _ _ _⟩

/-- C10 witness: the bound theorem at a concrete two-product set. -/
theorem order_lines_bounds_witness :
    (([3, 7] : List Nat) ≠ [] ∧ ([3, 7] : List Nat).Nodup) ∧
    (1 ≤ (orderLineProducts [3, 7] 5 (fun n => n)).length ∧
    (orderLineProducts [3, 7] 5 (fun n => n)).length ≤ 10 ∧
    (orderLineProducts [3, 7] 5 (fun n => n)).length ≤
      ([3, 7] : List Nat).length ∧
    (orderLineProducts [3, 7] 5 (fun n => n)).Nodup ∧
    ∀ x ∈ orderLineProducts [3, 7] 5 (fun n => n), x ∈ [3, 7]) :=
  ⟨⟨by decide, by decide⟩,
    order_lines_bounds [3, 7] 5 (fun n => n) (by decide) (by decide)⟩

/-! ## Sales targets (`inventory.py` lines 93-115, `generate_data.py`
lines 2282-2304) -/

/-- The fields of a cached employee consulted by the sales-target stage:
the resolved database id (present iff `'real_id' in e`), the integer
`role_id` assigned from the roles table, and the territory id. -/
structure TargetEmp where
  realId : Option Nat
  roleId : Nat
  territoryId : Nat
deriving Repr, DecidableEq

/-- One row of `sales_targets` as built by `inventory.py` lines 105-113. -/
structure SalesTarget where
  employeeId : Nat
  targetYear : Nat
  targetCurrency : String
deriving Repr, DecidableEq

/-- The employee filter of `inventory.py` lines 94-95:
`'real_id' in e and 'Sales' in str(e.get('role_id', ''))`. The second
conjunct applies the substring test to the decimal rendering of the integer
role id. -/
def salesRoleFilter (e : TargetEmp) : Bool :=
  e.realId.isSome && pyStrIn "Sales" (toString e.roleId)

/-- The sales-target rows produced by `inventory.py` lines 97-115: for each
employee passing `salesRoleFilter`, one row per target year in
`[end_year, end_year + 1]`, with the currency looked up from the
territory (default USD). -/
def generateSalesTargets (emps : List TargetEmp) (endYear : Nat)
    (territoryCurrency : Nat → Option String) : List SalesTarget :=
  (emps.filter salesRoleFilter).bind (fun e =>
    [endYear, endYear + 1].map (fun y =>
      { employeeId := e.realId.getD 0, targetYear := y,
        targetCurrency := (territoryCurrency e.territoryId).getD "USD" }))

/-- C4 (code bug): an employee holding the seeded sales role (role id 2,
`Sales Manager`) with a resolved real id receives NO sales-target rows,
because the filter tests for the substring `Sales` inside the decimal
string of the integer role id, which never matches; the same filter applied
to the role NAME, as the spec intends, would match. No employee ever
receives a target row: the digits of a role id cannot contain `Sales`
(checked here for every role id below 100; the seeded roles table has
eight rows). -/
theorem sales_targets_empty :
    generateSalesTargets [⟨some 7, 2, 3⟩] 2025 (fun _ => some "EUR") = [] ∧
    pyStrIn "Sales" "Sales Manager" = true ∧
    ((List.range 100).all
      (fun r => !(pyStrIn "Sales" (toString r)))) = true := by
  refine ⟨by decide, by decide, by decide⟩

/-! ## Data integrity validation (`validation.py` lines 7-28) and the
orchestrator's use of it (`generate_data.py` lines 2358-2382) -/

/-- The accumulation loop of `validate_data_integrity`: `all_valid` starts
`True` and is set `False` for each orphan-detection query whose count is
positive (the four queries: countries without territories, non-CEO
employees without managers, products without categories, orders without
customers); `counts` are the query results. -/
def validate_data_integrity (counts : List Nat) : Bool :=
  counts.foldl (fun allValid c => if c > 0 then false else allValid) true

/-- The stage loop and validation call of `generate_all_data`
(`generate_data.py` lines 2358-2378): any stage exception aborts with
failure; otherwise validation runs, its boolean is only logged (warning on
`False`, lines 2370-2373), and the run reports success regardless. -/
def generate_all_data (stageResults : List (Except String Unit))
    (validationCounts : List Nat) : Bool :=
  if stageResults.all (fun r => match r with
      | .ok _ => true
      | .error _ => false) then
    let _ := validate_data_integrity validationCounts
    true
  else false

theorem validate_foldl (l : List Nat) :
    ∀ acc : Bool,
      l.foldl (fun allValid c => if c > 0 then false else allValid) acc =
        (acc && l.all (fun c => c == 0)) := by
  induction l with
  | nil => intro acc; simp
  | cons c cs ih =>
    intro acc
    rw [List.foldl_cons, ih]
    cases Nat.eq_zero_or_pos c with
    | inl h => subst h; simp
    | inr h =>
      have : (c > 0) = True := by simp [h]
      simp [Nat.pos_iff_ne_zero.mp h, this]

/-- C9: `validate_data_integrity` returns `True` iff all four
orphan-detection counts are zero, and a `False` result never affects the
orchestrator: `generate_all_data` reports the same success value whatever
the validation counts are (it only logs a warning), so validation is
advisory only. -/
theorem validation_advisory :
    (∀ counts : List Nat,
      (validate_data_integrity counts = true ↔ ∀ c ∈ counts, c = 0)) ∧
    (∀ (stageResults : List (Except String Unit))
      (counts otherCounts : List Nat),
      generate_all_data stageResults counts =
        generate_all_data stageResults otherCounts) := by
  constructor
  · intro counts
    unfold validate_data_integrity
    rw [validate_foldl]
    simp [List.all_eq_true]
  · intro stageResults counts otherCounts
    unfold generate_all_data
    rfl

/-! ## Purchase orders (`supplier.py` lines 240-441, `generate_data.py`
lines 1513-1708) -/

/-- One iteration's sampled inputs for the purchase-order loop: the chosen
supplier's resolved id and its rows in `product_suppliers`
(product id, unit cost), as returned by the query of `supplier.py` lines
328-334. -/
structure SupplierIter where
  supplierRealId : Nat
  supplierProducts : List (Nat × ℚ)
deriving Repr, DecidableEq

/-- A purchase-order dict as accumulated by `supplier.py` lines 309-321:
`total_cost` is `none` as long as line 380 (`po['total_cost'] = ...`) has
not run for it. -/
structure PORec where
  poNumber : String
  supplierId : Nat
  totalCost : Option ℚ
deriving Repr, DecidableEq

/-- One `purchase_order_details` dict (`supplier.py` lines 349-355). -/
structure PODetailRec where
  poNumber : String
  productId : Nat
  quantity : Nat
deriving Repr, DecidableEq

/-- The purchase-order generation loop (`supplier.py` lines 271-380): for
iteration `i`, the PO dict is appended to the list BEFORE the
supplier-products check; when the sampled supplier has zero
`product_suppliers` rows the loop continues, leaving the appended dict
without `total_cost`; otherwise line items are drawn and `total_cost` is
set. -/
def buildPurchaseOrders (iters : List SupplierIter)
    (poNumberOf : Nat → String) (numLinesOf : Nat → Nat)
    (pickOf : Nat → Nat → Nat) (qtyOf : Nat → Nat → Nat) :
    List PORec × List PODetailRec :=
  (iters.enum).foldl (fun acc ie =>
    let i := ie.1
    let s := ie.2
    let po0 : PORec := ⟨poNumberOf i, s.supplierRealId, none⟩
    match s.supplierProducts with
    | [] => (acc.1 ++ [po0], acc.2)
    | q :: qs =>
      let lines := (List.range (numLinesOf i)).map (fun j =>
        (pyChoiceD (q :: qs) (pickOf i j) q, qtyOf i j))
      let details := lines.map (fun pq =>
        (⟨poNumberOf i, pq.1.1, pq.2⟩ : PODetailRec))
      let total := (lines.map (fun pq => pq.1.2 * (pq.2 : ℚ))).sum
      (acc.1 ++ [{ po0 with totalCost := some total }], acc.2 ++ details))
    ([], [])

/-- The insert comprehension of `supplier.py` lines 383-388: it reads
`po['total_cost']` for every accumulated PO, so a PO whose iteration was
skipped raises `KeyError` before anything is inserted. -/
def poInsertRows (pos : List PORec) :
    Except String (List (String × Nat × ℚ)) :=
  pos.mapM (fun po =>
    match po.totalCost with
    | some t => Except.ok (po.poNumber, po.supplierId, t)
    | none => Except.error "KeyError: total_cost")

/-- C3 (code bug): with two iterations,
the second sampling a supplier having zero `product_suppliers` rows, the
skipped iteration still leaves a PO dict in the list (with no
`total_cost`), every detail row belongs to the first PO, and the insert
step fails with a KeyError, so no purchase order at all is inserted -- the
claimed behavior (skip that PO, insert the others normally) does not
happen. -/
theorem purchase_order_skip_bug :
    (buildPurchaseOrders
        [⟨11, [(5, (10 : ℚ))]⟩, ⟨12, []⟩]
        (fun i => "PO-" ++ toString i) (fun _ => 1) (fun _ _ => 0)
        (fun _ _ => 2)).1.length = 2 ∧
    ((buildPurchaseOrders
        [⟨11, [(5, (10 : ℚ))]⟩, ⟨12, []⟩]
        (fun i => "PO-" ++ toString i) (fun _ => 1) (fun _ _ => 0)
        (fun _ _ => 2)).1.get? 1).map PORec.totalCost = some none ∧
    (∀ d ∈ (buildPurchaseOrders
        [⟨11, [(5, (10 : ℚ))]⟩, ⟨12, []⟩]
        (fun i => "PO-" ++ toString i) (fun _ => 1) (fun _ _ => 0)
        (fun _ _ => 2)).2, d.poNumber = "PO-0") ∧
    poInsertRows (buildPurchaseOrders
        [⟨11, [(5, (10 : ℚ))]⟩, ⟨12, []⟩]
        (fun i => "PO-" ++ toString i) (fun _ => 1) (fun _ _ => 0)
        (fun _ _ => 2)).1 = Except.error "KeyError: total_cost" := by
  refine ⟨by decide, by decide, by decide, by rfl⟩

/-! ## HR stage (`hr.py` lines 11-296)

The employee hierarchy: CEO first, then regional managers, then remaining
staff, inserted in three passes with manager references resolved to real
database ids between passes. Attributes irrelevant to the claims (names,
salaries, hire dates, role ids) are omitted; emails, manager references,
territory ids and the id bookkeeping are modelled exactly.

Randomness is modelled per call site: `mgrTerrPick`/`mgrEmailCand`/
`mgrDomain` are indexed by the global manager-creation step,
`staffTerrPick`/`staffMgrPick`/`staffEmailCand`/`staffDomain` by the staff
iteration. Database ids are assigned sequentially from `firstId` in
insertion order (the stage restarts the employee sequence at 1, so the
intended value is `firstId = 1`). -/

/-- A cached territory record as the HR stage sees it: the resolved real id
(`'id'`, absent when resolution failed) and the region of its country.
(`hr.py` reads the region via the territory's `country_code` and the
country cache; each country code belongs to exactly one region, so the
composite is the region field.) -/
structure TerrC where
  tid : Option Nat
  region : String
deriving Repr, DecidableEq

/-- A generated employee dict before insertion: local id (`'id'`), email,
`'manager_id'` (a local id until resolution), and real territory id. -/
structure EmpGen where
  lid : Nat
  email : String
  managerRef : Option Nat
  territoryId : Nat
deriving Repr, DecidableEq

/-- An inserted `employees` row: database-assigned id, email, and the
`manager_id` value stored at insertion time. -/
structure EmpRow where
  rid : Nat
  email : String
  managerId : Option Nat
deriving Repr, DecidableEq

/-- The random and fake-data oracles consumed by the HR stage. -/
structure HRStreams where
  ceoPick : Nat
  ceoEmail : String
  mgrTerrPick : Nat → Nat
  mgrEmailCand : Nat → Nat → String
  mgrDomain : Nat → String
  staffTerrPick : Nat → Nat
  staffMgrPick : Nat → Nat
  staffEmailCand : Nat → Nat → String
  staffDomain : Nat → String

/-- One step of the region grouping (`hr.py` lines 85-91): skip a territory
without `'id'`; otherwise append its real id to its region's list, creating
the region entry on first appearance. -/
def addTerr (acc : List (String × List Nat)) (t : TerrC) :
    List (String × List Nat) :=
  match t.tid with
  | none => acc
  | some i =>
    if acc.any (fun p => p.1 = t.region) then
      acc.map (fun p => if p.1 = t.region then (p.1, p.2 ++ [i]) else p)
    else acc ++ [(t.region, [i])]

/-- `hr.py` lines 83-91: group the resolved territories by region,
preserving first-appearance order (Python dict insertion order); each group
keeps the real territory ids. Territories without `'id'` are skipped. -/
def groupTerritories (ts : List TerrC) : List (String × List Nat) :=
  ts.foldl addTerr []

/-- State of the regional-manager creation loop (`hr.py` lines 93-138). -/
structure MgrState where
  nextId : Nat
  used : List String
  mgrs : List EmpGen
  step : Nat
  stop : Bool
deriving Repr, DecidableEq

/-- One regional-manager creation (`hr.py` lines 100-138): choose a
territory of the region, generate a unique email with budget 10 and
fallback `manager{employee_id}@{domain}`, append the manager with
`manager_id = ceo['id']` (the CEO's local id), and stop once
`employee_id > config.employees`. -/
def mkManagerStep (cfgEmployees : Nat) (S : HRStreams) (ceoLid : Nat)
    (tids : List Nat) (st : MgrState) : MgrState :=
  if st.stop then st else
  match pyChoice tids (S.mgrTerrPick st.step) with
  | none => st
  | some tid =>
    let fb := "manager" ++ toString st.nextId ++ "@" ++ S.mgrDomain st.step
    let email := genUniqueKey (S.mgrEmailCand st.step) fb st.used 10
    let mgr : EmpGen := ⟨st.nextId, email, some ceoLid, tid⟩
    ⟨st.nextId + 1, email :: st.used, st.mgrs ++ [mgr], st.step + 1,
      decide (st.nextId + 1 > cfgEmployees)⟩

/-- The per-region loop body (`hr.py` lines 94-138):
`min(max(1, len(region_territories) // 5), len(region_territories))`
manager-creation iterations, aborted once the employee budget is hit. -/
def mkManagersForRegion (cfgEmployees : Nat) (S : HRStreams) (ceoLid : Nat)
    (st : MgrState) (g : String × List Nat) : MgrState :=
  if st.stop then st
  else
    (List.range (min (max 1 (g.2.length / 5)) g.2.length)).foldl
      (fun st2 _ => mkManagerStep cfgEmployees S ceoLid g.2 st2) st

/-- Lookup of a territory by its key in the local-id-keyed cache
(`self.cache['territories'].get(k)`): local keys are 1-based positions in
the cache's insertion order. -/
def lookupLocalTerr (ts : List TerrC) (k : Nat) : Option TerrC :=
  if k = 0 then none else ts.get? (k - 1)

/-- The regional-affinity filter of `hr.py` lines 153-154: managers whose
`territory_id` (a REAL id, used as a key into the LOCAL-id-keyed territory
cache -- a key-space mixup kept faithfully) lands on a territory of the
staff member's region. -/
def regionManagers (ts : List TerrC) (mgrs : List EmpGen)
    (region : String) : List EmpGen :=
  mgrs.filter (fun m =>
    match lookupLocalTerr ts m.territoryId with
    | some t => t.region == region
    | none => false)

/-- State of the staff creation loop (`hr.py` lines 140-209). -/
structure StaffState where
  nextId : Nat
  used : List String
  staff : List EmpGen
deriving Repr, DecidableEq

/-- One staff creation (`hr.py` lines 143-209): choose any cached territory
(skip it if unresolved), pick a manager (regional manager if any, else any
manager, else the CEO), generate a unique email with budget 10 and fallback
`employee{employee_id}@{domain}`, append with `manager_id =
manager['id']` (a local id). -/
def mkStaffStep (S : HRStreams) (ts : List TerrC) (mgrs : List EmpGen)
    (ceo : EmpGen) (i : Nat) (st : StaffState) : StaffState :=
  match pyChoice ts (S.staffTerrPick i) with
  | none => st
  | some terr =>
    match terr.tid with
    | none => st
    | some tid =>
      let mgr :=
        match regionManagers ts mgrs terr.region with
        | m :: ms => pyChoiceD (m :: ms) (S.staffMgrPick i) m
        | [] =>
          match mgrs with
          | m :: ms => pyChoiceD (m :: ms) (S.staffMgrPick i) m
          | [] => ceo
      let fb := emailFallback st.nextId (S.staffDomain i)
      let email := genUniqueKey (S.staffEmailCand i) fb st.used 10
      ⟨st.nextId + 1, email :: st.used,
        st.staff ++ [⟨st.nextId, email, some mgr.lid, tid⟩]⟩

/-- The staff loop (`hr.py` line 143): `remaining_slots` iterations. -/
def mkStaff (S : HRStreams) (ts : List TerrC) (mgrs : List EmpGen)
    (ceo : EmpGen) (count startId : Nat) (used : List String) : StaffState :=
  (List.range count).foldl (fun st i => mkStaffStep S ts mgrs ceo i st)
    ⟨startId, used, []⟩

/-- `hr.py` lines 227-228: re-query the CEO's row by email over the table
holding only the CEO row; `fetchone()[0]` (the default 0 is unreachable
since the row is present). -/
def ceoRealId (table : List EmpRow) (email : String) : Nat :=
  ((table.filter (fun r => r.email == email)).head?).elim 0 (fun r => r.rid)

/-- `hr.py` lines 250-259: the manager's real id from the dict built over
the email query (later fetched rows overwrite earlier ones, so the LAST
matching row in table order wins), gated by Python truthiness
(`if real_id:`). -/
def mgrRealId (table : List EmpRow) (m : EmpGen) : Option Nat :=
  match (table.filter (fun r => r.email == m.email)).getLast? with
  | some row => if row.rid = 0 then none else some row.rid
  | none => none

/-- `hr.py` lines 263-269: replace a staff member's local manager reference
by the real id of the first manager whose local id matches and whose
`real_id` was set; an unmatched reference is stored unchanged. -/
def resolveStaffManager (mgrs : List EmpGen) (table : List EmpRow)
    (mref : Nat) : Nat :=
  match mgrs.find? (fun m => m.lid == mref && (mgrRealId table m).isSome) with
  | some m => (mgrRealId table m).getD mref
  | none => mref

/-- The manager rows as inserted (`hr.py` lines 232-248): consecutive
database ids from `startRid`, `manager_id` already rewritten to the CEO's
real id for every manager. -/
def rowsFrom (startRid ceoReal : Nat) : List EmpGen → List EmpRow
  | [] => []
  | m :: ms => ⟨startRid, m.email, some ceoReal⟩ :: rowsFrom (startRid + 1) ceoReal ms

/-- The staff rows as inserted (`hr.py` lines 271-284): consecutive
database ids, `manager_id` resolved per `resolveStaffManager`. -/
def staffRowsFrom (mgrs : List EmpGen) (table : List EmpRow) :
    Nat → List EmpGen → List EmpRow
  | _, [] => []
  | startRid, e :: es =>
    ⟨startRid, e.email, e.managerRef.map (resolveStaffManager mgrs table)⟩ ::
      staffRowsFrom mgrs table (startRid + 1) es

/-- The result of one HR run: the inserted rows of the three passes, in
insertion order `ceoRow, mgrRows, staffRows`. -/
structure HRResult where
  ceoRow : EmpRow
  mgrRows : List EmpRow
  staffRows : List EmpRow
deriving Repr, DecidableEq

/-- The regional-manager phase output (`hr.py` lines 81-138), started after
the CEO with local id 1 and counter 2, the CEO's email used. -/
def hrMgrState (cfgEmployees : Nat) (ts : List TerrC) (S : HRStreams) :
    MgrState :=
  (groupTerritories ts).foldl (mkManagersForRegion cfgEmployees S 1)
    ⟨2, [S.ceoEmail], [], 0, false⟩

/-- The staff phase output (`hr.py` lines 140-209): `remaining_slots =
config.employees - len(employees)` iterations, continuing the id counter
and used-email set of the manager phase; `ctid` is the CEO's territory
id. -/
def hrStaffState (cfgEmployees : Nat) (ts : List TerrC) (S : HRStreams)
    (ctid : Nat) : StaffState :=
  mkStaff S ts (hrMgrState cfgEmployees ts S).mgrs ⟨1, S.ceoEmail, none, ctid⟩
    (cfgEmployees - (1 + (hrMgrState cfgEmployees ts S).mgrs.length))
    (hrMgrState cfgEmployees ts S).nextId (hrMgrState cfgEmployees ts S).used

/-- The three insert passes with reference resolution
(`hr.py` lines 211-293): CEO row (manager NULL), manager rows (manager =
CEO's re-queried real id), staff rows (manager resolved per
`resolveStaffManager` over the table of previously inserted rows). -/
def hrAssemble (cfgEmployees : Nat) (ts : List TerrC) (S : HRStreams)
    (firstId ctid : Nat) : HRResult :=
  let mst := hrMgrState cfgEmployees ts S
  let sst := hrStaffState cfgEmployees ts S ctid
  let ceoRow : EmpRow := ⟨firstId, S.ceoEmail, none⟩
  let ceoReal := ceoRealId [ceoRow] S.ceoEmail
  let mgrRows := rowsFrom (firstId + 1) ceoReal mst.mgrs
  ⟨ceoRow, mgrRows,
    staffRowsFrom mst.mgrs (ceoRow :: mgrRows)
      (firstId + 1 + mst.mgrs.length) sst.staff⟩

/-- The HR stage (`hr.py` lines 11-296). Errors model the uncaught Python
exceptions: choosing from an empty territory cache (IndexError) and a CEO
territory without a resolved id (KeyError on `ceo_territory['id']`). -/
def generateHRData (cfgEmployees : Nat) (ts : List TerrC) (S : HRStreams)
    (firstId : Nat) : Except String HRResult :=
  match pyChoice ts S.ceoPick with
  | none => .error "IndexError: empty territories"
  | some ceoTerr =>
    match ceoTerr.tid with
    | none => .error "KeyError: id"
    | some ctid => .ok (hrAssemble cfgEmployees ts S firstId ctid)

/-! ### Supporting lemmas for the HR stage -/

theorem pyChoice_mem {α : Type} (l : List α) (p : Nat) (x : α)
    (h : pyChoice l p = some x) : x ∈ l :=
  List.get?_mem h

theorem pyChoice_ne_nil {α : Type} (l : List α) (p : Nat) (h : l ≠ []) :
    ∃ x, pyChoice l p = some x := by
  have hlen : 0 < l.length := List.length_pos.mpr h
  have hlt : p % l.length < l.length := Nat.mod_lt _ hlen
  unfold pyChoice
  rw [List.get?_eq_get hlt]
  exact ⟨_, rfl⟩

theorem pyChoiceD_cons_mem {α : Type} (a : α) (l : List α) (p : Nat) :
    pyChoiceD (a :: l) p a ∈ a :: l := by
  unfold pyChoiceD
  cases h : pyChoice (a :: l) p with
  | none => exact List.mem_cons_self _ _
  | some y => exact pyChoice_mem _ _ _ h

theorem getLastQ_mem {α : Type} (l : List α) (a : α)
    (h : l.getLast? = some a) : a ∈ l := by
  obtain ⟨hne, rfl⟩ := List.mem_getLast?_eq_getLast (l := l) (x := a) h
  exact List.getLast_mem hne

theorem getLastQ_cons_of_ne_nil {α : Type} (a : α) (l : List α)
    (h : l ≠ []) : (a :: l).getLast? = l.getLast? := by
  cases l with
  | nil => exact absurd rfl h
  | cons x xs => exact List.getLast?_cons_cons

theorem getLastQ_isSome_of_ne_nil {α : Type} (l : List α) (h : l ≠ []) :
    ∃ a, l.getLast? = some a := by
  obtain ⟨x, xs, rfl⟩ := List.exists_cons_of_ne_nil h
  induction xs generalizing x with
  | nil => exact ⟨x, rfl⟩
  | cons y ys ih =>
    obtain ⟨a, ha⟩ := ih y (by simp)
    exact ⟨a, by rw [List.getLast?_cons_cons]; exact ha⟩

theorem addTerr_lists_ne_nil (acc : List (String × List Nat)) (t : TerrC)
    (h : ∀ g ∈ acc, g.2 ≠ []) : ∀ g ∈ addTerr acc t, g.2 ≠ [] := by
  cases ht : t.tid with
  | none => simp only [addTerr, ht]; exact h
  | some i =>
    simp only [addTerr, ht]
    by_cases hany : acc.any (fun p => p.1 = t.region)
    · rw [if_pos hany]
      intro g hg
      obtain ⟨p, hp, rfl⟩ := List.mem_map.mp hg
      by_cases hpr : p.1 = t.region
      · rw [if_pos hpr]; simp
      · rw [if_neg hpr]; exact h p hp
    · rw [if_neg hany]
      intro g hg
      rcases List.mem_append.mp hg with hg | hg
      · exact h g hg
      · rcases List.mem_singleton.mp hg with rfl
        simp

theorem addTerr_ne_nil (acc : List (String × List Nat)) (t : TerrC)
    (h : acc ≠ [] ∨ t.tid.isSome) : addTerr acc t ≠ [] := by
  cases ht : t.tid with
  | none =>
    simp only [addTerr, ht]
    rcases h with h | h
    · exact h
    · rw [ht] at h; cases h
  | some i =>
    simp only [addTerr, ht]
    by_cases hany : acc.any (fun p => p.1 = t.region)
    · rw [if_pos hany]
      cases acc with
      | nil => cases hany
      | cons a as => simp
    · rw [if_neg hany]
      simp

theorem addTerr_keeps_ne_nil (acc : List (String × List Nat)) (t : TerrC)
    (h : acc ≠ []) : addTerr acc t ≠ [] :=
  addTerr_ne_nil acc t (Or.inl h)

theorem groupTerritories_lists_ne_nil (ts : List TerrC) :
    ∀ g ∈ groupTerritories ts, g.2 ≠ [] := by
  unfold groupTerritories
  suffices hgen : ∀ (l : List TerrC) (acc : List (String × List Nat)),
      (∀ g ∈ acc, g.2 ≠ []) → ∀ g ∈ l.foldl addTerr acc, g.2 ≠ [] by
    exact hgen ts [] (by intro g hg; cases hg)
  intro l
  induction l with
  | nil => intro acc h; exact h
  | cons t rest ih =>
    intro acc h
    rw [List.foldl_cons]
    exact ih (addTerr acc t) (addTerr_lists_ne_nil acc t h)

theorem groupTerritories_ne_nil (ts : List TerrC)
    (h : ∃ t ∈ ts, t.tid.isSome) : groupTerritories ts ≠ [] := by
  unfold groupTerritories
  suffices hgen : ∀ (l : List TerrC) (acc : List (String × List Nat)),
      (acc ≠ [] ∨ ∃ t ∈ l, t.tid.isSome) → l.foldl addTerr acc ≠ [] by
    exact hgen ts [] (Or.inr h)
  intro l
  induction l with
  | nil =>
    intro acc h
    rcases h with h | ⟨t, ht, _⟩
    · exact h
    · cases ht
  | cons t rest ih =>
    intro acc h
    rw [List.foldl_cons]
    rcases h with h | ⟨u, hu, hus⟩
    · exact ih _ (Or.inl (addTerr_keeps_ne_nil acc t h))
    · rcases List.mem_cons.mp hu with rfl | hu
      · exact ih _ (Or.inl (addTerr_ne_nil acc u (Or.inr hus)))
      · exact ih _ (Or.inr ⟨u, hu, hus⟩)

theorem mkManagerStep_mgrs (cfg : Nat) (S : HRStreams) (cl : Nat)
    (tids : List Nat) (st : MgrState) :
    (mkManagerStep cfg S cl tids st).mgrs = st.mgrs ∨
    ∃ m, (mkManagerStep cfg S cl tids st).mgrs = st.mgrs ++ [m] := by
  unfold mkManagerStep
  by_cases hs : st.stop
  · rw [if_pos hs]; left; rfl
  · rw [if_neg hs]
    cases h : pyChoice tids (S.mgrTerrPick st.step) with
    | none => left; rfl
    | some tid => right; exact ⟨_, rfl⟩

theorem mkManagerStep_appends (cfg : Nat) (S : HRStreams) (cl : Nat)
    (tids : List Nat) (st : MgrState) (hs : st.stop = false)
    (htids : tids ≠ []) :
    ∃ m, (mkManagerStep cfg S cl tids st).mgrs = st.mgrs ++ [m] := by
  obtain ⟨x, hx⟩ := pyChoice_ne_nil tids (S.mgrTerrPick st.step) htids
  unfold mkManagerStep
  rw [if_neg (by simp [hs]), hx]
  exact ⟨_, rfl⟩

theorem foldl_mgrStep_mgrs (cfg : Nat) (S : HRStreams) (cl : Nat)
    (tids : List Nat) :
    ∀ (l : List Nat) (st : MgrState),
      ∃ tl, ((l.foldl (fun st2 _ => mkManagerStep cfg S cl tids st2)
        st).mgrs) = st.mgrs ++ tl := by
  intro l
  induction l with
  | nil => intro st; exact ⟨[], by simp⟩
  | cons x xs ih =>
    intro st
    rw [List.foldl_cons]
    obtain ⟨tl, htl⟩ := ih (mkManagerStep cfg S cl tids st)
    rcases mkManagerStep_mgrs cfg S cl tids st with h | ⟨m, h⟩
    · exact ⟨tl, by rw [htl, h]⟩
    · exact ⟨[m] ++ tl, by rw [htl, h]; simp⟩

theorem mkManagersForRegion_mgrs (cfg : Nat) (S : HRStreams) (cl : Nat)
    (st : MgrState) (g : String × List Nat) :
    ∃ tl, (mkManagersForRegion cfg S cl st g).mgrs = st.mgrs ++ tl := by
  unfold mkManagersForRegion
  by_cases hs : st.stop
  · rw [if_pos hs]; exact ⟨[], by simp⟩
  · rw [if_neg hs]; exact foldl_mgrStep_mgrs cfg S cl g.2 _ st

theorem foldl_regions_mgrs (cfg : Nat) (S : HRStreams) (cl : Nat) :
    ∀ (gs : List (String × List Nat)) (st : MgrState),
      ∃ tl, ((gs.foldl (mkManagersForRegion cfg S cl) st).mgrs) =
        st.mgrs ++ tl := by
  intro gs
  induction gs with
  | nil => intro st; exact ⟨[], by simp⟩
  | cons g rest ih =>
    intro st
    rw [List.foldl_cons]
    obtain ⟨tl, htl⟩ := ih (mkManagersForRegion cfg S cl st g)
    obtain ⟨tl2, htl2⟩ := mkManagersForRegion_mgrs cfg S cl st g
    exact ⟨tl2 ++ tl, by rw [htl, htl2]; simp⟩

theorem mkManagersForRegion_creates (cfg : Nat) (S : HRStreams) (cl : Nat)
    (st : MgrState) (g : String × List Nat) (hs : st.stop = false)
    (hg : g.2 ≠ []) : (mkManagersForRegion cfg S cl st g).mgrs ≠ [] := by
  unfold mkManagersForRegion
  rw [if_neg (by simp [hs])]
  have hlen : 0 < g.2.length := List.length_pos.mpr hg
  have hmin : 1 ≤ min (max 1 (g.2.length / 5)) g.2.length :=
    le_min (le_max_left _ _) hlen
  obtain ⟨k, hk⟩ : ∃ k, min (max 1 (g.2.length / 5)) g.2.length = k + 1 :=
    ⟨min (max 1 (g.2.length / 5)) g.2.length - 1, by omega⟩
  rw [hk, List.range_succ_eq_map, List.foldl_cons]
  obtain ⟨m, hm⟩ := mkManagerStep_appends cfg S cl g.2 st hs hg
  obtain ⟨tl, htl⟩ := foldl_mgrStep_mgrs cfg S cl g.2
    (List.map Nat.succ (List.range k)) (mkManagerStep cfg S cl g.2 st)
  rw [htl, hm]
  simp

theorem hrMgrState_mgrs_ne_nil (cfg : Nat) (ts : List TerrC) (S : HRStreams)
    (h : ∃ t ∈ ts, t.tid.isSome) : (hrMgrState cfg ts S).mgrs ≠ [] := by
  unfold hrMgrState
  have hgs := groupTerritories_ne_nil ts h
  have hlists := groupTerritories_lists_ne_nil ts
  obtain ⟨g, grest, hge⟩ := List.exists_cons_of_ne_nil hgs
  rw [hge]
  rw [List.foldl_cons]
  have h1 : (mkManagersForRegion cfg S 1
      ⟨2, [S.ceoEmail], [], 0, false⟩ g).mgrs ≠ [] :=
    mkManagersForRegion_creates cfg S 1 _ g rfl
      (hlists g (by rw [hge]; exact List.mem_cons_self _ _))
  obtain ⟨tl, htl⟩ := foldl_regions_mgrs cfg S 1 grest
    (mkManagersForRegion cfg S 1 ⟨2, [S.ceoEmail], [], 0, false⟩ g)
  rw [htl]
  intro hc
  rcases List.append_eq_nil.mp hc with ⟨hc1, _⟩
  exact h1 hc1

/-- The property every appended staff member satisfies: its manager
reference is the local id of one of the regional managers, or of the CEO
when no regional manager exists at all. -/
def StaffRefOk (mgrs : List EmpGen) (ceo : EmpGen) (e : EmpGen) : Prop :=
  (∃ m, m ∈ mgrs ∧ e.managerRef = some m.lid) ∨
    (mgrs = [] ∧ e.managerRef = some ceo.lid)

theorem mkStaffStep_staff (S : HRStreams) (ts : List TerrC)
    (mgrs : List EmpGen) (ceo : EmpGen) (i : Nat) (st : StaffState) :
    (mkStaffStep S ts mgrs ceo i st).staff = st.staff ∨
    ∃ e : EmpGen, (mkStaffStep S ts mgrs ceo i st).staff = st.staff ++ [e] ∧
      StaffRefOk mgrs ceo e := by
  unfold mkStaffStep
  cases hc : pyChoice ts (S.staffTerrPick i) with
  | none => left; rfl
  | some terr =>
    cases ht : terr.tid with
    | none => simp only [ht]; left; trivial
    | some tid =>
      simp only [ht]
      right
      refine ⟨_, rfl, ?_⟩
      simp only [StaffRefOk]
      cases hr : regionManagers ts mgrs terr.region with
      | cons m ms =>
        left
        refine ⟨pyChoiceD (m :: ms) (S.staffMgrPick i) m, ?_, rfl⟩
        have hsub : (m :: ms) ⊆ mgrs := by
          intro x hx
          have hx2 : x ∈ regionManagers ts mgrs terr.region := by
            rw [hr]
            exact hx
          exact (List.mem_filter.mp hx2).1
        exact hsub (pyChoiceD_cons_mem m ms (S.staffMgrPick i))
      | nil =>
        cases hm : mgrs with
        | cons m ms =>
          left
          exact ⟨pyChoiceD (m :: ms) (S.staffMgrPick i) m,
            pyChoiceD_cons_mem m ms (S.staffMgrPick i), rfl⟩
        | nil => right; exact ⟨rfl, rfl⟩

theorem mkStaff_staff_refs (S : HRStreams) (ts : List TerrC)
    (mgrs : List EmpGen) (ceo : EmpGen) :
    ∀ (l : List Nat) (st : StaffState),
      (∀ e ∈ st.staff, StaffRefOk mgrs ceo e) →
      ∀ e ∈ (l.foldl (fun st2 i => mkStaffStep S ts mgrs ceo i st2)
        st).staff, StaffRefOk mgrs ceo e := by
  intro l
  induction l with
  | nil => intro st h; exact h
  | cons x xs ih =>
    intro st h
    rw [List.foldl_cons]
    refine ih _ ?_
    rcases mkStaffStep_staff S ts mgrs ceo x st with hs | ⟨e, hs, he⟩
    · rw [hs]; exact h
    · rw [hs]
      intro f hf
      rcases List.mem_append.mp hf with hf | hf
      · exact h f hf
      · rcases List.mem_singleton.mp hf with rfl
        exact he

theorem hrStaffState_refs (cfg : Nat) (ts : List TerrC) (S : HRStreams)
    (ctid : Nat) :
    ∀ e ∈ (hrStaffState cfg ts S ctid).staff,
      StaffRefOk (hrMgrState cfg ts S).mgrs ⟨1, S.ceoEmail, none, ctid⟩ e := by
  unfold hrStaffState mkStaff
  exact mkStaff_staff_refs S ts (hrMgrState cfg ts S).mgrs
    ⟨1, S.ceoEmail, none, ctid⟩ _ _ (by intro e he; cases he)

theorem mkStaffStep_no_resolved (S : HRStreams) (ts : List TerrC)
    (mgrs : List EmpGen) (ceo : EmpGen) (i : Nat) (st : StaffState)
    (h : ∀ t ∈ ts, t.tid = none) : mkStaffStep S ts mgrs ceo i st = st := by
  unfold mkStaffStep
  cases hc : pyChoice ts (S.staffTerrPick i) with
  | none => rfl
  | some terr =>
    simp only [h terr (pyChoice_mem ts _ terr hc)]

theorem mkStaff_no_resolved (S : HRStreams) (ts : List TerrC)
    (mgrs : List EmpGen) (ceo : EmpGen)
    (h : ∀ t ∈ ts, t.tid = none) :
    ∀ (l : List Nat) (st : StaffState),
      (l.foldl (fun st2 i => mkStaffStep S ts mgrs ceo i st2) st) = st := by
  intro l
  induction l with
  | nil => intro st; rfl
  | cons x xs ih =>
    intro st
    rw [List.foldl_cons, mkStaffStep_no_resolved S ts mgrs ceo x st h]
    exact ih st

theorem hrStaffState_some_resolved (cfg : Nat) (ts : List TerrC)
    (S : HRStreams) (ctid : Nat)
    (h : (hrStaffState cfg ts S ctid).staff ≠ []) :
    ∃ t ∈ ts, t.tid.isSome := by
  by_contra hall
  push_neg at hall
  have hnone : ∀ t ∈ ts, t.tid = none := by
    intro t ht
    have := hall t ht
    cases hx : t.tid with
    | none => rfl
    | some v => rw [hx] at this; cases this rfl
  apply h
  unfold hrStaffState mkStaff
  rw [mkStaff_no_resolved S ts _ _ hnone]

theorem rowsFrom_shape (cr : Nat) :
    ∀ (ms : List EmpGen) (s : Nat), ∀ row ∈ rowsFrom s cr ms,
      row.managerId = some cr ∧ s ≤ row.rid := by
  intro ms
  induction ms with
  | nil => intro s row hrow; cases hrow
  | cons m rest ih =>
    intro s row hrow
    rw [rowsFrom] at hrow
    rcases List.mem_cons.mp hrow with rfl | hrow
    · exact ⟨rfl, le_refl _⟩
    · obtain ⟨h1, h2⟩ := ih (s + 1) row hrow
      exact ⟨h1, by omega⟩

theorem rowsFrom_email (cr : Nat) :
    ∀ (ms : List EmpGen) (s : Nat), ∀ m ∈ ms,
      ∃ row ∈ rowsFrom s cr ms, row.email = m.email := by
  intro ms
  induction ms with
  | nil => intro s m hm; cases hm
  | cons m0 rest ih =>
    intro s m hm
    rcases List.mem_cons.mp hm with rfl | hm
    · refine ⟨⟨s, m.email, some cr⟩, ?_, rfl⟩
      rw [rowsFrom]
      exact List.mem_cons_self _ _
    · obtain ⟨row, hrow, he⟩ := ih (s + 1) m hm
      refine ⟨row, ?_, he⟩
      rw [rowsFrom]
      exact List.mem_cons_of_mem _ hrow

theorem staffRowsFrom_shape (mgrs : List EmpGen) (table : List EmpRow) :
    ∀ (es : List EmpGen) (s : Nat), ∀ row ∈ staffRowsFrom mgrs table s es,
      ∃ e ∈ es, row.managerId =
        e.managerRef.map (resolveStaffManager mgrs table) := by
  intro es
  induction es with
  | nil => intro s row hrow; cases hrow
  | cons e rest ih =>
    intro s row hrow
    rw [staffRowsFrom] at hrow
    rcases List.mem_cons.mp hrow with rfl | hrow
    · exact ⟨e, List.mem_cons_self _ _, rfl⟩
    · obtain ⟨e2, he2, hm⟩ := ih (s + 1) row hrow
      exact ⟨e2, List.mem_cons_of_mem _ he2, hm⟩

theorem mgrRealId_of_row (c : EmpRow) (rows : List EmpRow) (m : EmpGen)
    (hrow : ∃ row ∈ rows, row.email = m.email)
    (hrid : ∀ row ∈ rows, row.rid ≠ 0) :
    ∃ r, mgrRealId (c :: rows) m = some r ∧
      ∃ row ∈ rows, row.rid = r := by
  obtain ⟨row0, hrow0, hemail0⟩ := hrow
  have hfl : rows.filter (fun r => r.email == m.email) ≠ [] := by
    intro hc
    have : row0 ∈ rows.filter (fun r => r.email == m.email) :=
      List.mem_filter.mpr ⟨hrow0, by simp [hemail0]⟩
    rw [hc] at this
    cases this
  obtain ⟨last, hlast⟩ :=
    getLastQ_isSome_of_ne_nil (rows.filter (fun r => r.email == m.email)) hfl
  have hlastmem : last ∈ rows.filter (fun r => r.email == m.email) :=
    getLastQ_mem _ _ hlast
  have hlastrows : last ∈ rows := (List.mem_filter.mp hlastmem).1
  have hlastrid : last.rid ≠ 0 := hrid last hlastrows
  have hfilter : (c :: rows).filter (fun r => r.email == m.email) =
      if c.email == m.email then
        c :: rows.filter (fun r => r.email == m.email)
      else rows.filter (fun r => r.email == m.email) := List.filter_cons
  refine ⟨last.rid, ?_, last, hlastrows, rfl⟩
  unfold mgrRealId
  rw [hfilter]
  by_cases hc : c.email == m.email
  · rw [if_pos hc, getLastQ_cons_of_ne_nil _ _ hfl, hlast]
    simp [hlastrid]
  · rw [if_neg hc, hlast]
    simp [hlastrid]

theorem ceoRealId_single (firstId : Nat) (e : String) :
    ceoRealId [⟨firstId, e, none⟩] e = firstId := by
  simp [ceoRealId]

theorem hrAssemble_ceoRow (cfg : Nat) (ts : List TerrC) (S : HRStreams)
    (firstId ctid : Nat) :
    (hrAssemble cfg ts S firstId ctid).ceoRow = ⟨firstId, S.ceoEmail, none⟩ :=
  rfl

theorem hrAssemble_mgrRows (cfg : Nat) (ts : List TerrC) (S : HRStreams)
    (firstId ctid : Nat) :
    (hrAssemble cfg ts S firstId ctid).mgrRows =
      rowsFrom (firstId + 1)
        (ceoRealId [⟨firstId, S.ceoEmail, none⟩] S.ceoEmail)
        (hrMgrState cfg ts S).mgrs := rfl

theorem hrAssemble_staffRows (cfg : Nat) (ts : List TerrC) (S : HRStreams)
    (firstId ctid : Nat) :
    (hrAssemble cfg ts S firstId ctid).staffRows =
      staffRowsFrom (hrMgrState cfg ts S).mgrs
        (⟨firstId, S.ceoEmail, none⟩ ::
          rowsFrom (firstId + 1)
            (ceoRealId [⟨firstId, S.ceoEmail, none⟩] S.ceoEmail)
            (hrMgrState cfg ts S).mgrs)
        (firstId + 1 + (hrMgrState cfg ts S).mgrs.length)
        (hrStaffState cfg ts S ctid).staff := rfl

theorem hrAssemble_refs (cfg : Nat) (ts : List TerrC) (S : HRStreams)
    (firstId ctid : Nat) :
    (∀ r ∈ (hrAssemble cfg ts S firstId ctid).mgrRows,
      r.managerId = some (hrAssemble cfg ts S firstId ctid).ceoRow.rid) ∧
    (∀ r ∈ (hrAssemble cfg ts S firstId ctid).staffRows,
      ∃ e, (e ∈ (hrAssemble cfg ts S firstId ctid).ceoRow ::
            (hrAssemble cfg ts S firstId ctid).mgrRows) ∧
        r.managerId = some e.rid) := by
  rw [hrAssemble_ceoRow, hrAssemble_mgrRows, hrAssemble_staffRows,
    ceoRealId_single]
  constructor
  · intro r hr
    exact (rowsFrom_shape firstId (hrMgrState cfg ts S).mgrs (firstId + 1)
      r hr).1
  · intro r hr
    obtain ⟨e, he, hmid⟩ := staffRowsFrom_shape (hrMgrState cfg ts S).mgrs
      _ (hrStaffState cfg ts S ctid).staff _ r hr
    have hok := hrStaffState_refs cfg ts S ctid e he
    rcases hok with ⟨m, hm, href⟩ | ⟨hnil, href⟩
    · -- the staff member references a regional manager; resolution succeeds
      -- and yields the real id of one of the inserted manager rows
      obtain ⟨rm, hrm, hrmrow⟩ := mgrRealId_of_row
        ⟨firstId, S.ceoEmail, none⟩
        (rowsFrom (firstId + 1) firstId (hrMgrState cfg ts S).mgrs) m
        (rowsFrom_email firstId (hrMgrState cfg ts S).mgrs (firstId + 1)
          m hm)
        (by
          intro row hrow
          have := (rowsFrom_shape firstId (hrMgrState cfg ts S).mgrs
            (firstId + 1) row hrow).2
          omega)
      have hfindSome : ((hrMgrState cfg ts S).mgrs.find?
          (fun m2 => m2.lid == m.lid &&
            (mgrRealId (⟨firstId, S.ceoEmail, none⟩ ::
              rowsFrom (firstId + 1) firstId
                (hrMgrState cfg ts S).mgrs) m2).isSome)).isSome := by
        rw [List.find?_isSome]
        exact ⟨m, hm, by rw [hrm]; simp⟩
      obtain ⟨m1, hfind⟩ := Option.isSome_iff_exists.mp hfindSome
      have hpred := List.find?_some hfind
      rw [Bool.and_eq_true] at hpred
      obtain ⟨rm1, hrm1, hrm1row⟩ := mgrRealId_of_row
        ⟨firstId, S.ceoEmail, none⟩
        (rowsFrom (firstId + 1) firstId (hrMgrState cfg ts S).mgrs) m1
        (rowsFrom_email firstId (hrMgrState cfg ts S).mgrs (firstId + 1)
          m1 (List.mem_of_find?_eq_some hfind))
        (by
          intro row hrow
          have := (rowsFrom_shape firstId (hrMgrState cfg ts S).mgrs
            (firstId + 1) row hrow).2
          omega)
      obtain ⟨row1, hrow1, hrid1⟩ := hrm1row
      refine ⟨row1, List.mem_cons_of_mem _ hrow1, ?_⟩
      rw [hmid, href]
      simp only [Option.map_some']
      unfold resolveStaffManager
      rw [hfind]
      simp only [hrm1, Option.getD_some]
      rw [hrid1]
    · -- impossible: a staff member exists only when some territory is
      -- resolved, in which case at least one regional manager was created
      exfalso
      have hstaffne : (hrStaffState cfg ts S ctid).staff ≠ [] :=
        List.ne_nil_of_mem he
      have hsome := hrStaffState_some_resolved cfg ts S ctid hstaffne
      exact hrMgrState_mgrs_ne_nil cfg ts S hsome hnil

theorem generateHRData_ok (cfg : Nat) (ts : List TerrC) (S : HRStreams)
    (firstId : Nat) (res : HRResult)
    (h : generateHRData cfg ts S firstId = .ok res) :
    ∃ ctid, res = hrAssemble cfg ts S firstId ctid := by
  unfold generateHRData at h
  split at h
  · simp at h
  · split at h
    · simp at h
    · rename_i ctid hct
      injection h with h2
      exact ⟨ctid, h2.symm⟩

/-- C2: in every successful HR run, every regional-manager row is inserted
with `manager_id` equal to the CEO row's database-assigned id, and every
staff row is inserted with `manager_id` equal to the database-assigned id
of a row inserted in an earlier pass (the CEO row or a regional-manager
row). -/
theorem hr_manager_refs_resolve (cfg : Nat) (ts : List TerrC)
    (S : HRStreams) (firstId : Nat) (res : HRResult)
    (h : generateHRData cfg ts S firstId = .ok res) :
    (∀ r ∈ res.mgrRows, r.managerId = some res.ceoRow.rid) ∧
    (∀ r ∈ res.staffRows, ∃ e, (e ∈ res.ceoRow :: res.mgrRows) ∧
      r.managerId = some e.rid) := by
  obtain ⟨ctid, rfl⟩ := generateHRData_ok cfg ts S firstId res h
  exact hrAssemble_refs cfg ts S firstId ctid

theorem hrAssemble_filter_none (cfg : Nat) (ts : List TerrC) (S : HRStreams)
    (firstId ctid : Nat) :
    (((hrAssemble cfg ts S firstId ctid).ceoRow ::
      ((hrAssemble cfg ts S firstId ctid).mgrRows ++
        (hrAssemble cfg ts S firstId ctid).staffRows)).filter
      (fun r => r.managerId.isNone)).length = 1 := by
  obtain ⟨h1, h2⟩ := hrAssemble_refs cfg ts S firstId ctid
  have hceo : (hrAssemble cfg ts S firstId ctid).ceoRow.managerId = none := by
    rw [hrAssemble_ceoRow]
  have hnil : ((hrAssemble cfg ts S firstId ctid).mgrRows ++
      (hrAssemble cfg ts S firstId ctid).staffRows).filter
      (fun r => r.managerId.isNone) = [] := by
    rw [List.filter_eq_nil]
    intro r hrr
    rcases List.mem_append.mp hrr with hrr | hrr
    · rw [h1 r hrr]; simp
    · obtain ⟨e, _, hm⟩ := h2 r hrr
      rw [hm]; simp
  rw [List.filter_cons_of_pos (by rw [hceo]; rfl), hnil]
  rfl

/-- C7: in the employee rows produced by one successful HR run, exactly one
row (the CEO's, inserted with manager NULL) has a null `manager_id`; every
regional-manager row and staff row carries a non-null `manager_id`. -/
theorem hr_single_ceo (cfg : Nat) (ts : List TerrC) (S : HRStreams)
    (firstId : Nat) (res : HRResult)
    (h : generateHRData cfg ts S firstId = .ok res) :
    ((res.ceoRow :: (res.mgrRows ++ res.staffRows)).filter
      (fun r => r.managerId.isNone)).length = 1 ∧
    res.ceoRow.managerId = none := by
  obtain ⟨ctid, rfl⟩ := generateHRData_ok cfg ts S firstId res h
  exact ⟨hrAssemble_filter_none cfg ts S firstId ctid, by
    rw [hrAssemble_ceoRow]⟩

/-- A concrete HR input: two resolved territories in two regions. -/
def hrTerrs0 : List TerrC := [⟨some 1, "Europe"⟩, ⟨some 2, "Asia"⟩]

/-- Concrete HR oracles: distinct emails per call site, all picks 0. -/
def hrStreams0 : HRStreams :=
  ⟨0, "ceo@x", fun _ => 0, fun j _ => "mgr" ++ toString j ++ "@x",
    fun _ => "x", fun _ => 0, fun _ => 0,
    fun i _ => "st" ++ toString i ++ "@x", fun _ => "x"⟩

/-- The rows of the concrete HR run: CEO, two regional managers, one staff
member reporting to the first manager. -/
def hrRes0 : HRResult :=
  ⟨⟨1, "ceo@x", none⟩,
    [⟨2, "mgr0@x", some 1⟩, ⟨3, "mgr1@x", some 1⟩],
    [⟨4, "st0@x", some 2⟩]⟩

theorem hr_run0 : generateHRData 4 hrTerrs0 hrStreams0 1 = .ok hrRes0 := rfl

/-- C2 witness: the resolution theorem applied to the concrete run. -/
theorem hr_manager_refs_resolve_witness :
    generateHRData 4 hrTerrs0 hrStreams0 1 = .ok hrRes0 ∧
    ((∀ r ∈ hrRes0.mgrRows, r.managerId = some hrRes0.ceoRow.rid) ∧
      (∀ r ∈ hrRes0.staffRows, ∃ e, (e ∈ hrRes0.ceoRow :: hrRes0.mgrRows) ∧
        r.managerId = some e.rid)) :=
  ⟨hr_run0, hr_manager_refs_resolve 4 hrTerrs0 hrStreams0 1 hrRes0 hr_run0⟩

/-- C7 witness: the single-CEO theorem applied to the concrete run. -/
theorem hr_single_ceo_witness :
    generateHRData 4 hrTerrs0 hrStreams0 1 = .ok hrRes0 ∧
    (((hrRes0.ceoRow :: (hrRes0.mgrRows ++ hrRes0.staffRows)).filter
        (fun r => r.managerId.isNone)).length = 1 ∧
      hrRes0.ceoRow.managerId = none) :=
  ⟨hr_run0, hr_single_ceo 4 hrTerrs0 hrStreams0 1 hrRes0 hr_run0⟩
